import Mathlib

/-!
Verification of the golog log-record assembly pipeline (logger.go and the
context-key helpers) against its specification.

The Go code is embedded shallowly:

* `GoVal` models a Go `interface{}` value as it occurs in this library's
  data paths: `nil`, booleans, numbers, strings, `[]byte`, JSON arrays
  (`[]interface{}`) and JSON objects (`map[string]interface{}`).  A Go map
  is modelled as an association list; JSON numbers keep their source
  lexeme (the library never computes with them).
* Pure Go functions (`maskField`, `maskFieldMap`, `isSensitiveField`,
  `toJSON`, `removeAuth`, `populateFieldFromContext`, the record-building
  bodies of `Error`/`Fatal`/`Panic`/`TDR`, `Sync`) become Lean functions.
* `json.Unmarshal` into `map[string]interface{}` is modelled by an
  executable fuel-based JSON parser (`unmarshalMap`).
-/

namespace Golog

/-- A Go `interface{}` value as it flows through the masking pipeline.
`num` carries the numeric lexeme (the code never computes with numbers);
`bytes` is a Go `[]byte` whose content is the given string. -/
inductive GoVal where
  | null : GoVal
  | bool : Bool → GoVal
  | num : String → GoVal
  | str : String → GoVal
  | bytes : String → GoVal
  | arr : List GoVal → GoVal
  | map : List (String × GoVal) → GoVal

/-- `SENSITIVE_ATTR` from logger.go: the case-insensitive sensitive key
set, modelled as the list of its keys (all values in the Go map are
`true`). -/
def SENSITIVE_ATTR : List String :=
  ["password", "license", "license_code", "token", "access_token", "refresh_token"]

/-- `strings.ToLower`, modelled character-wise (the sensitive keys are
ASCII, so ASCII case mapping is the relevant fragment of Go's Unicode
case mapping). -/
def toLowerStr (s : String) : String :=
  String.mk (s.data.map Char.toLower)

/-- `isSensitiveField` from logger.go: membership of the lowercased key
in `SENSITIVE_ATTR`. -/
def isSensitiveField (key : String) : Bool :=
  SENSITIVE_ATTR.contains (toLowerStr key)

/-- The mask string `strings.Repeat("*", 5)` from logger.go. -/
def maskString : String := "*****"

mutual

/-- `maskFieldMap` from logger.go: rebuilds the map, recursing into map
values, recursing into map elements of array values, and masking scalar
values of sensitive keys. -/
def maskFieldMap : List (String × GoVal) → List (String × GoVal)
  | [] => []
  | (key, value) :: rest => (key, maskValue key value) :: maskFieldMap rest

/-- The body of `maskFieldMap`'s `switch` on one entry's value. -/
def maskValue (key : String) : GoVal → GoVal
  | GoVal.map m => GoVal.map (maskFieldMap m)
  | GoVal.arr xs => GoVal.arr (maskArr xs)
  | v => if isSensitiveField key then GoVal.str maskString else v

/-- The array loop inside `maskFieldMap`: map elements are masked
recursively, other elements pass through. -/
def maskArr : List GoVal → List GoVal
  | [] => []
  | GoVal.map m :: rest => GoVal.map (maskFieldMap m) :: maskArr rest
  | x :: rest => x :: maskArr rest

end

/-! ### JSON parsing (`json.Unmarshal` into `map[string]interface{}`)

The library calls `json.Unmarshal` on byte slices (in `maskField`) and on
strings (in `toJSON`) with a `map[string]interface{}` target.  Unmarshal
succeeds exactly when the input is one complete JSON value, surrounded
only by whitespace, whose top level is an object (filling the map) or
`null` (leaving the map `nil`).  The parser below is fuel-based and
executable; decoded unicode escapes that do not denote a valid scalar
value become U+FFFD (lone surrogate halves are not pair-combined, a
simplification that no claim touches). -/

/-- The `{` character (written by code to keep string literals plain). -/
def lbrace : Char := Char.ofNat 123

/-- The `}` character. -/
def rbrace : Char := Char.ofNat 125

/-- JSON insignificant whitespace. -/
def jsonWs (c : Char) : Bool :=
  c = ' ' || c = '\t' || c = '\n' || c = '\r'

/-- Drop leading JSON whitespace. -/
def skipWs : List Char → List Char
  | [] => []
  | c :: cs => if jsonWs c then skipWs cs else c :: cs

/-- Value of one hexadecimal digit. -/
def hexVal (c : Char) : Option Nat :=
  if '0' ≤ c ∧ c ≤ '9' then some (c.toNat - '0'.toNat)
  else if 'a' ≤ c ∧ c ≤ 'f' then some (c.toNat - 'a'.toNat + 10)
  else if 'A' ≤ c ∧ c ≤ 'F' then some (c.toNat - 'A'.toNat + 10)
  else none

/-- Single-character JSON escapes. -/
def escChar (c : Char) : Option Char :=
  if c = '\"' then some '\"'
  else if c = '\\' then some '\\'
  else if c = '/' then some '/'
  else if c = 'b' then some (Char.ofNat 8)
  else if c = 'f' then some (Char.ofNat 12)
  else if c = 'n' then some '\n'
  else if c = 'r' then some '\r'
  else if c = 't' then some '\t'
  else none

/-- Parse the body of a JSON string (the opening quote already
consumed), returning the decoded characters and the rest. -/
def parseStringBody : Nat → List Char → Option (List Char × List Char)
  | 0, _ => none
  | _ + 1, [] => none
  | fuel + 1, c :: cs =>
    if c = '\"' then some ([], cs)
    else if c = '\\' then
      match cs with
      | [] => none
      | e :: cs2 =>
        match escChar e with
        | some d => (parseStringBody fuel cs2).map (fun p => (d :: p.1, p.2))
        | none =>
          if e = 'u' then
            match cs2 with
            | a :: b :: c3 :: d :: cs3 =>
              match hexVal a, hexVal b, hexVal c3, hexVal d with
              | some ha, some hb, some hc, some hd =>
                let n := ((ha * 16 + hb) * 16 + hc) * 16 + hd
                let ch := if Nat.isValidChar n then Char.ofNat n else Char.ofNat 65533
                (parseStringBody fuel cs3).map (fun p => (ch :: p.1, p.2))
              | _, _, _, _ => none
            | _ => none
          else none
    else if c.toNat < 32 then none
    else (parseStringBody fuel cs).map (fun p => (c :: p.1, p.2))

/-- Longest digit run at the front. -/
def takeDigits : List Char → List Char × List Char
  | [] => ([], [])
  | c :: cs =>
    if c.isDigit then
      let p := takeDigits cs
      (c :: p.1, p.2)
    else ([], c :: cs)

/-- Optional exponent part after the integer/fraction part; `lex` is the
lexeme so far. -/
def parseExpPart (lex : List Char) : List Char → Option (String × List Char)
  | [] => some (String.mk lex, [])
  | e :: r2 =>
    if e = 'e' ∨ e = 'E' then
      let sp : List Char × List Char :=
        match r2 with
        | s :: r3 => if s = '+' ∨ s = '-' then ([s], r3) else ([], s :: r3)
        | [] => ([], [])
      let dp := takeDigits sp.2
      if dp.1 = [] then none
      else some (String.mk (lex ++ e :: sp.1 ++ dp.1), dp.2)
    else some (String.mk lex, e :: r2)

/-- Optional fraction part, then exponent. -/
def parseFracPart (lex : List Char) : List Char → Option (String × List Char)
  | '.' :: r2 =>
    let dp := takeDigits r2
    if dp.1 = [] then none else parseExpPart (lex ++ '.' :: dp.1) dp.2
  | r => parseExpPart lex r

/-- Parse a JSON number starting at the first character, returning its
lexeme. -/
def parseNumber (cs : List Char) : Option (String × List Char) :=
  let np : List Char × List Char :=
    match cs with
    | '-' :: r => (['-'], r)
    | _ => ([], cs)
  match np.2 with
  | c :: r =>
    if c = '0' then parseFracPart (np.1 ++ ['0']) r
    else if c.isDigit then
      let dp := takeDigits (c :: r)
      parseFracPart (np.1 ++ dp.1) dp.2
    else none
  | [] => none

/-- Match a literal character sequence. -/
def stripLit : List Char → List Char → Option (List Char)
  | [], cs => some cs
  | p :: ps, c :: cs => if c = p then stripLit ps cs else none
  | _ :: _, [] => none

/-- Insert into the object being built with Go map semantics: a
duplicate key overwrites the earlier value. -/
def objInsert (acc : List (String × GoVal)) (k : String) (v : GoVal) :
    List (String × GoVal) :=
  if acc.any (fun p => p.1 = k) then
    acc.map (fun p => if p.1 = k then (k, v) else p)
  else acc ++ [(k, v)]

mutual

/-- Parse one JSON value (leading whitespace allowed). -/
def parseVal : Nat → List Char → Option (GoVal × List Char)
  | 0, _ => none
  | fuel + 1, cs =>
    match skipWs cs with
    | [] => none
    | c :: rest =>
      if c = lbrace then
        match skipWs rest with
        | d :: rest2 =>
          if d = rbrace then some (GoVal.map [], rest2)
          else parseMembers fuel [] (d :: rest2)
        | [] => none
      else if c = '[' then
        match skipWs rest with
        | ']' :: rest2 => some (GoVal.arr [], rest2)
        | rest2 => parseElems fuel [] rest2
      else if c = '\"' then
        (parseStringBody fuel rest).map (fun p => (GoVal.str (String.mk p.1), p.2))
      else if c = 't' then
        (stripLit ['r', 'u', 'e'] rest).map (fun r => (GoVal.bool true, r))
      else if c = 'f' then
        (stripLit ['a', 'l', 's', 'e'] rest).map (fun r => (GoVal.bool false, r))
      else if c = 'n' then
        (stripLit ['u', 'l', 'l'] rest).map (fun r => (GoVal.null, r))
      else
        (parseNumber (c :: rest)).map (fun p => (GoVal.num p.1, p.2))

/-- Parse object members starting at a member's key (not at whitespace,
the opening brace and any following whitespace already consumed). -/
def parseMembers (fuel : Nat) (acc : List (String × GoVal)) :
    List Char → Option (GoVal × List Char)
  | '\"' :: cs =>
    match fuel with
    | 0 => none
    | fuel + 1 =>
      match parseStringBody fuel cs with
      | none => none
      | some (key, r1) =>
        match skipWs r1 with
        | ':' :: r2 =>
          match parseVal fuel r2 with
          | none => none
          | some (v, r3) =>
            let acc2 := objInsert acc (String.mk key) v
            match skipWs r3 with
            | ',' :: r4 => parseMembers fuel acc2 (skipWs r4)
            | d :: r4 =>
              if d = rbrace then some (GoVal.map acc2, r4) else none
            | [] => none
        | _ => none
  | _ => none

/-- Parse array elements starting at an element's first character. -/
def parseElems (fuel : Nat) (acc : List GoVal) :
    List Char → Option (GoVal × List Char)
  | cs =>
    match fuel with
    | 0 => none
    | fuel + 1 =>
      match parseVal fuel cs with
      | none => none
      | some (v, r1) =>
        match skipWs r1 with
        | ',' :: r2 => parseElems fuel (acc ++ [v]) r2
        | ']' :: r2 => some (GoVal.arr (acc ++ [v]), r2)
        | _ => none

end

/-- `json.Unmarshal(data, &m)` with `m : map[string]interface{}`:
`none` is an unmarshal error; `some none` means the input was JSON
`null` (the map stays `nil`); `some (some m)` is a decoded object. -/
def unmarshalMap (s : String) : Option (Option (List (String × GoVal))) :=
  match parseVal (s.length + 2) s.toList with
  | none => none
  | some (v, rest) =>
    if skipWs rest = [] then
      match v with
      | GoVal.map m => some (some m)
      | GoVal.null => some none
      | _ => none
    else none

/-- `maskField` from logger.go.  `nil` passes through; a `[]byte` is
returned as-is when empty, parsed and masked when it unmarshals to an
object, converted to a string (`string(bodyByte)`) when unmarshalling
fails; a map is masked directly; everything else passes through.  A
`[]byte` holding JSON `null` unmarshals with a `nil` map, and
`maskFieldMap(nil)` returns `nil`, modelled as `GoVal.null`. -/
def maskField : GoVal → GoVal
  | GoVal.null => GoVal.null
  | GoVal.bytes s =>
    if s.length = 0 then GoVal.bytes s
    else
      match unmarshalMap s with
      | none => GoVal.str s
      | some none => GoVal.null
      | some (some m) => GoVal.map (maskFieldMap m)
  | GoVal.map m => GoVal.map (maskFieldMap m)
  | v => v

/-- `toJSON` from logger.go: `nil` and non-strings pass through; the
empty string passes through; a string that unmarshals to an object is
replaced by that object, otherwise returned unchanged (a string holding
JSON `null` leaves the map `nil`, modelled as `GoVal.null`). -/
def toJSON : GoVal → GoVal
  | GoVal.null => GoVal.null
  | GoVal.str s =>
    if s = "" then GoVal.str s
    else
      match unmarshalMap s with
      | none => GoVal.str s
      | some none => GoVal.null
      | some (some m) => GoVal.map m
  | v => v

/-! ### Unfolding lemmas for the mutual masking recursion

`maskFieldMap`/`maskValue`/`maskArr` are compiled by well-founded
recursion, so they do not reduce definitionally; these equations drive
both the general proofs and concrete evaluations. -/

theorem maskFieldMap_nil : maskFieldMap [] = [] := by
  simp [maskFieldMap]

theorem maskFieldMap_cons (k : String) (v : GoVal) (rest : List (String × GoVal)) :
    maskFieldMap ((k, v) :: rest) = (k, maskValue k v) :: maskFieldMap rest := by
  simp [maskFieldMap]

theorem maskValue_map (k : String) (m : List (String × GoVal)) :
    maskValue k (GoVal.map m) = GoVal.map (maskFieldMap m) := by
  simp [maskValue]

theorem maskValue_arr (k : String) (xs : List GoVal) :
    maskValue k (GoVal.arr xs) = GoVal.arr (maskArr xs) := by
  simp [maskValue]

theorem maskValue_default (k : String) (v : GoVal)
    (hm : ∀ m, v ≠ GoVal.map m) (ha : ∀ xs, v ≠ GoVal.arr xs) :
    maskValue k v = if isSensitiveField k then GoVal.str maskString else v := by
  cases v with
  | map m => exact absurd rfl (hm m)
  | arr xs => exact absurd rfl (ha xs)
  | null => simp [maskValue]
  | bool b => simp [maskValue]
  | num s => simp [maskValue]
  | str s => simp [maskValue]
  | bytes s => simp [maskValue]

theorem maskArr_nil : maskArr [] = [] := by
  simp [maskArr]

theorem maskArr_cons_map (m : List (String × GoVal)) (rest : List GoVal) :
    maskArr (GoVal.map m :: rest) = GoVal.map (maskFieldMap m) :: maskArr rest := by
  simp [maskArr]

theorem maskArr_cons_other (x : GoVal) (rest : List GoVal)
    (hm : ∀ m, x ≠ GoVal.map m) :
    maskArr (x :: rest) = x :: maskArr rest := by
  cases x with
  | map m => exact absurd rfl (hm m)
  | null => simp [maskArr]
  | bool b => simp [maskArr]
  | num s => simp [maskArr]
  | str s => simp [maskArr]
  | bytes s => simp [maskArr]
  | arr xs => simp [maskArr]

/-- Masking a map twice is the same as masking it once (shared helper,
proved by the mutual functional induction of the masking recursion). -/
theorem maskFieldMap_idem : ∀ m, maskFieldMap (maskFieldMap m) = maskFieldMap m := by
  refine maskFieldMap.induct
    (fun m => maskFieldMap (maskFieldMap m) = maskFieldMap m)
    (fun k v => maskValue k (maskValue k v) = maskValue k v)
    (fun xs => maskArr (maskArr xs) = maskArr xs)
    ?_ ?_ ?_ ?_ ?_ ?_ ?_ ?_ ?_
  · intro key m ih
    rw [maskValue_map, maskValue_map, ih]
  · intro key xs ih
    rw [maskValue_arr, maskValue_arr, ih]
  · intro key v hm ha hs
    rw [maskValue_default key v (fun m h => hm m h) (fun xs h => ha xs h), if_pos hs,
      maskValue_default key (GoVal.str maskString) (by intro _ h; cases h) (by intro _ h; cases h),
      if_pos hs]
  · intro key v hm ha hs
    rw [maskValue_default key v (fun m h => hm m h) (fun xs h => ha xs h), if_neg hs,
      maskValue_default key v (fun m h => hm m h) (fun xs h => ha xs h), if_neg hs]
  · show maskArr (maskArr []) = maskArr []
    rw [maskArr_nil, maskArr_nil]
  · intro m rest ihm ihrest
    rw [maskArr_cons_map, maskArr_cons_map, ihm, ihrest]
  · intro x rest hm ihrest
    rw [maskArr_cons_other x rest (fun m h => hm m h),
      maskArr_cons_other x (maskArr rest) (fun m h => hm m h), ihrest]
  · show maskFieldMap (maskFieldMap []) = maskFieldMap []
    rw [maskFieldMap_nil, maskFieldMap_nil]
  · intro key value rest ihv ihrest
    rw [maskFieldMap_cons, maskFieldMap_cons, ihv, ihrest]

/-- `true` exactly on `GoVal.map` values. -/
def isMapVal : GoVal → Bool
  | GoVal.map _ => true
  | _ => false

end Golog

namespace Golog

/-! ### Claim C1 — masking of sensitive keys -/

/-- C1 counterexample: in the mapping `(password ↦ (x ↦ y))` the
sensitive key `password` holds a nested mapping, and `maskFieldMap`
recurses into it instead of replacing it with `"*****"`; the whole map
is returned unchanged, so masking does *not* replace a sensitive key's
value "regardless of the value's original type". -/
theorem mask_keeps_sensitive_map_value :
    maskFieldMap [("password", GoVal.map [("x", GoVal.str "y")])]
      = [("password", GoVal.map [("x", GoVal.str "y")])] ∧
    GoVal.map [("x", GoVal.str "y")] ≠ GoVal.str maskString := by
  constructor
  · rw [maskFieldMap_cons, maskValue_map, maskFieldMap_cons, maskFieldMap_nil,
      maskValue_default "x" (GoVal.str "y") (by intro _ h; cases h) (by intro _ h; cases h)]
    rfl
  · intro h
    cases h

/-- C1 (amended): for every mapping, masking preserves the key sequence
and rewrites each entry's value as follows — a nested mapping is masked
recursively, a sequence is rewritten elementwise (mapping elements
masked recursively, other elements unchanged), and any other value is
replaced by exactly `"*****"` when the key is case-insensitively
sensitive and kept unchanged otherwise.  Because the statement holds for
all mappings it applies at arbitrary nesting depth. -/
theorem maskFieldMap_entrywise :
    (∀ m : List (String × GoVal),
      List.Forall₂ (fun p q =>
        q.1 = p.1 ∧
        q.2 = match p.2 with
          | GoVal.map mm => GoVal.map (maskFieldMap mm)
          | GoVal.arr xs => GoVal.arr (maskArr xs)
          | v => if isSensitiveField p.1 then GoVal.str maskString else v)
        m (maskFieldMap m)) ∧
    (∀ xs : List GoVal,
      List.Forall₂ (fun x y =>
        y = match x with
          | GoVal.map mm => GoVal.map (maskFieldMap mm)
          | x => x)
        xs (maskArr xs)) := by
  constructor
  · intro m
    induction m with
    | nil => rw [maskFieldMap_nil]; exact List.Forall₂.nil
    | cons p rest ih =>
      obtain ⟨k, v⟩ := p
      rw [maskFieldMap_cons]
      refine List.Forall₂.cons ⟨rfl, ?_⟩ ih
      cases v with
      | map mm => simpa using maskValue_map k mm
      | arr xs => simpa using maskValue_arr k xs
      | null =>
        simpa using maskValue_default k GoVal.null (by intro _ h; cases h) (by intro _ h; cases h)
      | bool b =>
        simpa using
          maskValue_default k (GoVal.bool b) (by intro _ h; cases h) (by intro _ h; cases h)
      | num s =>
        simpa using
          maskValue_default k (GoVal.num s) (by intro _ h; cases h) (by intro _ h; cases h)
      | str s =>
        simpa using
          maskValue_default k (GoVal.str s) (by intro _ h; cases h) (by intro _ h; cases h)
      | bytes s =>
        simpa using
          maskValue_default k (GoVal.bytes s) (by intro _ h; cases h) (by intro _ h; cases h)
  · intro xs
    induction xs with
    | nil => rw [maskArr_nil]; exact List.Forall₂.nil
    | cons x rest ih =>
      cases x with
      | map mm => rw [maskArr_cons_map]; exact List.Forall₂.cons rfl ih
      | null => rw [maskArr_cons_other _ _ (by intro _ h; cases h)]; exact List.Forall₂.cons rfl ih
      | bool b => rw [maskArr_cons_other _ _ (by intro _ h; cases h)]; exact List.Forall₂.cons rfl ih
      | num s => rw [maskArr_cons_other _ _ (by intro _ h; cases h)]; exact List.Forall₂.cons rfl ih
      | str s => rw [maskArr_cons_other _ _ (by intro _ h; cases h)]; exact List.Forall₂.cons rfl ih
      | bytes s =>
        rw [maskArr_cons_other _ _ (by intro _ h; cases h)]; exact List.Forall₂.cons rfl ih
      | arr ys => rw [maskArr_cons_other _ _ (by intro _ h; cases h)]; exact List.Forall₂.cons rfl ih

/-! ### Claim C4 — masking is idempotent -/

/-- C4: masking is idempotent — both on the map level
(`maskFieldMap`) and through the `maskField` entry point applied to a
mapping. -/
theorem masking_idempotent :
    ∀ m, maskFieldMap (maskFieldMap m) = maskFieldMap m ∧
      maskField (maskField (GoVal.map m)) = maskField (GoVal.map m) := by
  intro m
  refine ⟨maskFieldMap_idem m, ?_⟩
  show maskField (GoVal.map (maskFieldMap m)) = GoVal.map (maskFieldMap m)
  show GoVal.map (maskFieldMap (maskFieldMap m)) = GoVal.map (maskFieldMap m)
  rw [maskFieldMap_idem]

/-! ### Claim C2 — which inputs `maskField` parses -/

/-- C2 counterexample: the string `"{"password":"secret"}"` is valid
JSON object text (its unmarshalling succeeds), yet `maskField` returns
the string itself — not a mapping at all — because only `[]byte` input
is parsed. -/
theorem maskField_string_not_parsed :
    unmarshalMap "\x7b\"password\":\"secret\"\x7d"
      = some (some [("password", GoVal.str "secret")]) ∧
    maskField (GoVal.str "\x7b\"password\":\"secret\"\x7d")
      = GoVal.str "\x7b\"password\":\"secret\"\x7d" ∧
    isMapVal (maskField (GoVal.str "\x7b\"password\":\"secret\"\x7d")) = false :=
  ⟨rfl, rfl, rfl⟩

/-- C2 (amended): `maskField` parses-and-masks only raw bytes: a
non-empty `[]byte` whose content unmarshals to a JSON object is parsed
and the masked mapping is returned, while a string input — JSON object
text or not — is always returned unchanged. -/
theorem maskField_parses_bytes_only :
    (∀ s m, s.length ≠ 0 → unmarshalMap s = some (some m) →
      maskField (GoVal.bytes s) = GoVal.map (maskFieldMap m)) ∧
    (∀ s, maskField (GoVal.str s) = GoVal.str s) := by
  constructor
  · intro s m hlen hparse
    simp [maskField, hlen, hparse]
  · intro s
    rfl

/-- C2 witness: a concrete non-empty byte payload that parses as a JSON
object is parsed and masked by `maskField`. -/
theorem maskField_parses_bytes_only_witness :
    maskField (GoVal.bytes "\x7b\"a\":\"b\"\x7d")
      = GoVal.map (maskFieldMap [("a", GoVal.str "b")]) :=
  maskField_parses_bytes_only.1 "\x7b\"a\":\"b\"\x7d" [("a", GoVal.str "b")]
    (by decide) rfl

/-! ### Claim C3 — malformed input degrades to pass-through -/

/-- C3 counterexample: on the unparseable byte payload `notjson` the
code returns `string(bodyByte)` — a string of the same content — not
the original byte slice, so the result is not "the same bytes that was
passed in". -/
theorem maskField_malformed_bytes_become_string :
    unmarshalMap "notjson" = none ∧
    maskField (GoVal.bytes "notjson") = GoVal.str "notjson" ∧
    GoVal.str "notjson" ≠ GoVal.bytes "notjson" :=
  ⟨rfl, rfl, fun h => by cases h⟩

/-- C3 (amended): `maskField` is total (never raises, by construction)
and degrades to pass-through on malformed input up to Go's
byte-to-string conversion: a non-empty unparseable `[]byte` is returned
as the string holding the same content, an empty `[]byte` is returned
as the same bytes, and a string is always returned as the same
string. -/
theorem maskField_malformed_passthrough :
    (∀ s, s.length ≠ 0 → unmarshalMap s = none →
      maskField (GoVal.bytes s) = GoVal.str s) ∧
    maskField (GoVal.bytes "") = GoVal.bytes "" ∧
    (∀ s, maskField (GoVal.str s) = GoVal.str s) := by
  refine ⟨?_, rfl, fun s => rfl⟩
  intro s hlen hparse
  simp [maskField, hlen, hparse]

/-- C3 witness: the concrete malformed byte payload `notjson` is
returned as a string with the same content. -/
theorem maskField_malformed_passthrough_witness :
    maskField (GoVal.bytes "notjson") = GoVal.str "notjson" :=
  maskField_malformed_passthrough.1 "notjson" (by decide) rfl

/-! ### Header redaction (`removeAuth`)

`removeAuth` recognises two header collection types.  `http.Header` is
a Go map from canonical header names to value slices, modelled as an
association list; its `Del` deletes the canonical form of the given
name.  `fasthttp.RequestHeader` stores generic headers as a list of
key/value pairs with normalised keys; its `Del` normalises the name and
removes every matching pair (`Authorization`, `Signature` and `Apikey`
are generic headers, not fasthttp "special" ones), and `Header()`
serialises to wire form, modelled as the joined `key: value` CRLF
lines. -/

/-- `SENSITIVE_HEADER` from logger.go. -/
def SENSITIVE_HEADER : List String := ["Authorization", "Signature", "Apikey"]

/-- A character allowed in a MIME header token
(`textproto.validHeaderFieldByte`). -/
def validHeaderFieldChar (c : Char) : Bool :=
  c.isAlphanum ||
    c ∈ ['!', '#', '$', '%', '&', Char.ofNat 39, '*', '+', '-', '.',
      Char.ofNat 94, '_', Char.ofNat 96, '|', Char.ofNat 126]

/-- Case-canonicalise header characters: uppercase at the start and
after each `-`, lowercase elsewhere. -/
def canonHeaderChars : Bool → List Char → List Char
  | _, [] => []
  | upper, c :: cs =>
    let d := if upper then c.toUpper else c.toLower
    d :: canonHeaderChars (d = '-') cs

/-- `textproto.CanonicalMIMEHeaderKey`: canonicalise if every character
is a valid token character, else return the key unchanged. -/
def canonicalMIMEHeaderKey (s : String) : String :=
  if s.data.all validHeaderFieldChar then String.mk (canonHeaderChars true s.data)
  else s

/-- `http.Header.Del`: remove the entry stored under the canonical form
of the name. -/
def httpHeaderDel (h : List (String × List String)) (key : String) :
    List (String × List String) :=
  h.filter (fun p => p.1 != canonicalMIMEHeaderKey key)

/-- fasthttp's header-key normalisation (uppercase at the start and
after each `-`, lowercase elsewhere; normalisation is enabled by
default). -/
def normalizeHeaderKey (s : String) : String :=
  String.mk (canonHeaderChars true s.data)

/-- `fasthttp.RequestHeader.Del`: remove every pair stored under the
normalised name. -/
def fasthttpHeaderDel (h : List (String × String)) (key : String) :
    List (String × String) :=
  h.filter (fun p => p.1 != normalizeHeaderKey key)

/-- Wire form of the generic header entries, one `key: value` CRLF line
each. -/
def serializeHeaderLines (h : List (String × String)) : String :=
  String.join (h.map (fun p => p.1 ++ ": " ++ p.2 ++ "\r\n"))

/-- The dynamic type of `removeAuth`'s `interface{}` argument. -/
inductive HeaderArg where
  | fast : List (String × String) → HeaderArg
  | http : List (String × List String) → HeaderArg
  | other : GoVal → HeaderArg

/-- The dynamic type of `removeAuth`'s result: serialised wire text for
a fasthttp header, the header map for `http.Header`, the untouched
input otherwise. -/
inductive HeaderOut where
  | wire : String → HeaderOut
  | http : List (String × List String) → HeaderOut
  | other : GoVal → HeaderOut

/-- `removeAuth` from logger.go. -/
def removeAuth : HeaderArg → HeaderOut
  | HeaderArg.fast h =>
    HeaderOut.wire (serializeHeaderLines (SENSITIVE_HEADER.foldl fasthttpHeaderDel h))
  | HeaderArg.http h => HeaderOut.http (SENSITIVE_HEADER.foldl httpHeaderDel h)
  | HeaderArg.other v => HeaderOut.other v

/-- Not being any of the three sensitive names, written as the chain of
comparisons the three `Del` calls perform, equals non-membership in
`SENSITIVE_HEADER` (shared helper for the redaction proof). -/
theorem sensitiveHeaderPred (x : String) :
    ((x != "Apikey") && ((x != "Signature") && (x != "Authorization")))
      = !(SENSITIVE_HEADER.contains x) := by
  by_cases h1 : x = "Authorization" <;> by_cases h2 : x = "Signature" <;>
    by_cases h3 : x = "Apikey" <;>
      simp [SENSITIVE_HEADER, h1, h2, h3]

/-! ### Claim C5 — header redaction -/

/-- C5: `removeAuth` deletes exactly the headers named in
`SENSITIVE_HEADER` (Authorization, Signature, Apikey) and keeps every
other entry unchanged and in order, for both supported collection
types — `http.Header` (returned as the filtered header map) and
`fasthttp.RequestHeader` (returned in serialised wire form) — and
returns any unrecognised input unchanged. -/
theorem removeAuth_redacts :
    (∀ h, removeAuth (HeaderArg.http h)
        = HeaderOut.http (h.filter (fun p => !(SENSITIVE_HEADER.contains p.1)))) ∧
    (∀ h, removeAuth (HeaderArg.fast h)
        = HeaderOut.wire (serializeHeaderLines
            (h.filter (fun p => !(SENSITIVE_HEADER.contains p.1))))) ∧
    (∀ v, removeAuth (HeaderArg.other v) = HeaderOut.other v) := by
  refine ⟨?_, ?_, fun v => rfl⟩
  · intro h
    show HeaderOut.http
        (httpHeaderDel (httpHeaderDel (httpHeaderDel h "Authorization") "Signature") "Apikey")
      = _
    simp only [httpHeaderDel, List.filter_filter]
    congr 1
    apply List.filter_congr
    intro x _
    rw [← sensitiveHeaderPred x.1]
    rfl
  · intro h
    show HeaderOut.wire (serializeHeaderLines
        (fasthttpHeaderDel (fasthttpHeaderDel (fasthttpHeaderDel h "Authorization")
          "Signature") "Apikey"))
      = _
    simp only [fasthttpHeaderDel, List.filter_filter]
    congr 2
    apply List.filter_congr
    intro x _
    rw [← sensitiveHeaderPred x.1]
    rfl

/-! ### Context field extraction (`populateFieldFromContext`)

The request context may carry, for each of the four semantic slots, a
value under the typed key (`contextKey("traceId")` etc.) and a value
under the legacy plain-string key of the same name; the two keys are
distinct.  `Ctx` records the result of the eight `ctx.Value` lookups;
each is an arbitrary dynamic value (`GoVal`) or absent.  A zap field is
a name together with a typed payload. -/

/-- The payload of a zap field as used in this library:
`zap.String`, `zap.Int64`, `zap.Uint64`, `zap.Any` (on a masked/decoded
value), and `zap.Any` on `removeAuth`'s result. -/
inductive FieldVal where
  | str : String → FieldVal
  | int64 : Int → FieldVal
  | uint64 : Nat → FieldVal
  | any : GoVal → FieldVal
  | anyHeader : HeaderOut → FieldVal

/-- The eight `ctx.Value` lookup results relevant to
`populateFieldFromContext`: for each slot, the value under the typed
`contextKey` and the value under the legacy string key. -/
structure Ctx where
  typedTraceId : Option GoVal
  strTraceId : Option GoVal
  typedSrcIP : Option GoVal
  strSrcIP : Option GoVal
  typedPort : Option GoVal
  strPort : Option GoVal
  typedPath : Option GoVal
  strPath : Option GoVal

/-- Go's `v, ok := x.(string)` guarded by `ok && v != ""`: the lookup
result as a non-empty string, if it is one. -/
def strOk : Option GoVal → Option String
  | some (GoVal.str v) => if v = "" then none else some v
  | _ => none

/-- One `if(typed) ... else if(legacy) ...` block of
`populateFieldFromContext`: emit the field under the fixed `key` from
the typed lookup if it is a non-empty string, else from the legacy
lookup, else emit nothing. -/
def slotFields (key : String) (typed legacy : Option GoVal) :
    List (String × FieldVal) :=
  match strOk typed with
  | some v => [(key, FieldVal.str v)]
  | none =>
    match strOk legacy with
    | some v => [(key, FieldVal.str v)]
    | none => []

/-- `populateFieldFromContext` from logger.go: the four slot blocks
appended in order. -/
def populateFieldFromContext (ctx : Ctx) : List (String × FieldVal) :=
  slotFields "traceId" ctx.typedTraceId ctx.strTraceId
    ++ slotFields "srcIP" ctx.typedSrcIP ctx.strSrcIP
    ++ slotFields "port" ctx.typedPort ctx.strPort
    ++ slotFields "path" ctx.typedPath ctx.strPath

/-- Modelled from the spec: an ordered list of lookup strategies per
slot, tried in sequence, where the first value that is a non-empty
string wins (an empty string or a non-string counts as absent). -/
def firstNonEmptyHit : List (Option GoVal) → Option String
  | [] => none
  | o :: rest =>
    match o with
    | some (GoVal.str s) => if s = "" then firstNonEmptyHit rest else some s
    | _ => firstNonEmptyHit rest

/-- A slot's contribution: one field with the fixed literal key if the
lookup produced a value, nothing otherwise. -/
def optSlot (key : String) : Option String → List (String × FieldVal)
  | some v => [(key, FieldVal.str v)]
  | none => []

/-- Unfolding of the spec-side lookup: one strategy is consulted
through the same non-empty-string guard the code uses (shared
helper). -/
theorem firstNonEmptyHit_cons (o : Option GoVal) (rest : List (Option GoVal)) :
    firstNonEmptyHit (o :: rest) =
      match strOk o with
      | some v => some v
      | none => firstNonEmptyHit rest := by
  cases o with
  | none => rfl
  | some v =>
    cases v with
    | str s => by_cases hs : s = "" <;> simp [firstNonEmptyHit, strOk, hs]
    | null => rfl
    | bool b => rfl
    | num n => rfl
    | bytes b => rfl
    | arr xs => rfl
    | map m => rfl

/-- One slot block equals the spec's first-non-empty-wins lookup over
`[typed, legacy]` (shared helper). -/
theorem slotFields_eq_firstNonEmptyHit (key : String) (typed legacy : Option GoVal) :
    slotFields key typed legacy = optSlot key (firstNonEmptyHit [typed, legacy]) := by
  rw [firstNonEmptyHit_cons, firstNonEmptyHit_cons]
  cases ht : strOk typed with
  | some v => simp [slotFields, ht, optSlot]
  | none =>
    cases hl : strOk legacy with
    | some v => simp [slotFields, ht, hl, optSlot]
    | none => simp [slotFields, ht, hl, optSlot, firstNonEmptyHit]

/-! ### Claim C6 — context slot lookup order -/

/-- C6: for every context, the emitted fields are, per slot and in slot
order, the result of trying the typed key first and the legacy string
key second, where the first non-empty string value wins, the slot is
omitted entirely when neither lookup yields a non-empty string, and
every emitted field uses the fixed literal key of its slot. -/
theorem populateFieldFromContext_spec :
    ∀ ctx : Ctx,
      populateFieldFromContext ctx =
        optSlot "traceId" (firstNonEmptyHit [ctx.typedTraceId, ctx.strTraceId])
          ++ optSlot "srcIP" (firstNonEmptyHit [ctx.typedSrcIP, ctx.strSrcIP])
          ++ optSlot "port" (firstNonEmptyHit [ctx.typedPort, ctx.strPort])
          ++ optSlot "path" (firstNonEmptyHit [ctx.typedPath, ctx.strPath]) := by
  intro ctx
  show slotFields "traceId" ctx.typedTraceId ctx.strTraceId
      ++ slotFields "srcIP" ctx.typedSrcIP ctx.strSrcIP
      ++ slotFields "port" ctx.typedPort ctx.strPort
      ++ slotFields "path" ctx.typedPath ctx.strPath = _
  rw [slotFields_eq_firstNonEmptyHit, slotFields_eq_firstNonEmptyHit,
    slotFields_eq_firstNonEmptyHit, slotFields_eq_firstNonEmptyHit]

/-! ### Record building (`Error`/`Fatal`/`Panic` and `TDR`)

A record handed to the zap backend is a severity, a message and the
ordered field list.  The `LogModel` struct's declaration is not among
the provided sources; its fields and their types are taken from their
uses in `TDR` (string correlation id, status code and method, `uint64`
HTTP status, `time.Duration` response time in nanoseconds, and
`interface{}` header/request/response/error/other-data). -/

/-- zap severity levels used by this library. -/
inductive Level where
  | debugL : Level
  | infoL : Level
  | warnL : Level
  | errorL : Level
  | fatalL : Level
  | panicL : Level

/-- A finished record as passed to the backend sink: severity, message
and the ordered structured fields. -/
structure Record where
  level : Level
  message : String
  fields : List (String × FieldVal)

/-- The TDR input struct (fields as used by `TDR`); `ResponseTime` is a
`time.Duration` in nanoseconds. -/
structure LogModel where
  CorrelationID : String
  Header : HeaderArg
  Request : GoVal
  StatusCode : String
  Method : String
  HttpStatus : Nat
  Response : GoVal
  ResponseTime : Int
  Error : GoVal
  OtherData : GoVal

/-- `time.Duration.Milliseconds()`: nanoseconds divided by 10^6 with
Go's truncating integer division. -/
def durationMilliseconds (d : Int) : Int := Int.tdiv d 1000000

/-- The body of `Log.Error`: caller fields, then context fields, then
the `error` field holding `toJSON err`, emitted at Error level with the
caller's message. -/
def errorRecord (ctx : Ctx) (msg : String) (err : GoVal)
    (fields : List (String × FieldVal)) : Record :=
  { level := Level.errorL, message := msg,
    fields := fields ++ populateFieldFromContext ctx
      ++ [("error", FieldVal.any (toJSON err))] }

/-- The body of `Log.Fatal` (same shape as `Error`, Fatal level). -/
def fatalRecord (ctx : Ctx) (msg : String) (err : GoVal)
    (fields : List (String × FieldVal)) : Record :=
  { level := Level.fatalL, message := msg,
    fields := fields ++ populateFieldFromContext ctx
      ++ [("error", FieldVal.any (toJSON err))] }

/-- The body of `Log.Panic` (same shape as `Error`, Panic level). -/
def panicRecord (ctx : Ctx) (msg : String) (err : GoVal)
    (fields : List (String × FieldVal)) : Record :=
  { level := Level.panicL, message := msg,
    fields := fields ++ populateFieldFromContext ctx
      ++ [("error", FieldVal.any (toJSON err))] }

/-- The body of `Log.TDR`: context fields, then the ten fixed
transaction fields in source order, emitted at Info level on the TDR
sink with the fixed message `":"`. -/
def TDRRecord (ctx : Ctx) (log : LogModel) : Record :=
  { level := Level.infoL, message := ":",
    fields := populateFieldFromContext ctx
      ++ [("correlationId", FieldVal.str log.CorrelationID),
          ("header", FieldVal.anyHeader (removeAuth log.Header)),
          ("request", FieldVal.any (toJSON (maskField log.Request))),
          ("statusCode", FieldVal.str log.StatusCode),
          ("method", FieldVal.str log.Method),
          ("httpStatus", FieldVal.uint64 log.HttpStatus),
          ("response", FieldVal.any (toJSON (maskField log.Response))),
          ("rt", FieldVal.int64 (durationMilliseconds log.ResponseTime)),
          ("error", FieldVal.any (toJSON log.Error)),
          ("otherData", FieldVal.any (toJSON log.OtherData))] }

/-! ### Claim C7 — transaction record layout -/

/-- C7: every transaction-detail record carries the fixed literal
message `":"` (not caller-supplied) and its fields are, in exactly this
order: context fields, correlation id, redacted headers, masked request
body, status code string, method, numeric HTTP status, masked response
body, whole-millisecond latency, normalised error, free-form extra
data. -/
theorem TDR_record_shape :
    ∀ (ctx : Ctx) (log : LogModel),
      (TDRRecord ctx log).message = ":" ∧
      (TDRRecord ctx log).fields =
        populateFieldFromContext ctx
          ++ [("correlationId", FieldVal.str log.CorrelationID),
              ("header", FieldVal.anyHeader (removeAuth log.Header)),
              ("request", FieldVal.any (toJSON (maskField log.Request))),
              ("statusCode", FieldVal.str log.StatusCode),
              ("method", FieldVal.str log.Method),
              ("httpStatus", FieldVal.uint64 log.HttpStatus),
              ("response", FieldVal.any (toJSON (maskField log.Response))),
              ("rt", FieldVal.int64 (durationMilliseconds log.ResponseTime)),
              ("error", FieldVal.any (toJSON log.Error)),
              ("otherData", FieldVal.any (toJSON log.OtherData))] :=
  fun _ _ => ⟨rfl, rfl⟩

/-! ### Claim C8 — Error/Fatal/Panic record layout -/

/-- C8: for every Error, Fatal or Panic call the emitted fields are the
caller-supplied fields, then the context fields, then one `error` field
holding `toJSON err`; and `toJSON` implements the
JSON-unwrap-if-possible rule — a string that unmarshals to a JSON
object is expanded into that object's structured fields, any other
non-empty string that fails to unmarshal is kept as the same string,
and a non-string error value is kept exactly as given. -/
theorem errorlike_record_fields :
    (∀ ctx msg err fields, (errorRecord ctx msg err fields).fields
        = fields ++ populateFieldFromContext ctx
          ++ [("error", FieldVal.any (toJSON err))]) ∧
    (∀ ctx msg err fields, (fatalRecord ctx msg err fields).fields
        = fields ++ populateFieldFromContext ctx
          ++ [("error", FieldVal.any (toJSON err))]) ∧
    (∀ ctx msg err fields, (panicRecord ctx msg err fields).fields
        = fields ++ populateFieldFromContext ctx
          ++ [("error", FieldVal.any (toJSON err))]) ∧
    (∀ s m, s ≠ "" → unmarshalMap s = some (some m) →
      toJSON (GoVal.str s) = GoVal.map m) ∧
    (∀ s, unmarshalMap s = none → toJSON (GoVal.str s) = GoVal.str s) ∧
    (∀ v, (∀ s, v ≠ GoVal.str s) → toJSON v = v) := by
  refine ⟨fun _ _ _ _ => rfl, fun _ _ _ _ => rfl, fun _ _ _ _ => rfl, ?_, ?_, ?_⟩
  · intro s m hs hparse
    simp [toJSON, hs, hparse]
  · intro s hparse
    by_cases hs : s = ""
    · simp [toJSON, hs]
    · simp [toJSON, hs, hparse]
  · intro v hv
    cases v with
    | str s => exact absurd rfl (hv s)
    | null => rfl
    | bool b => rfl
    | num n => rfl
    | bytes b => rfl
    | arr xs => rfl
    | map m => rfl

/-- C8 witness: a concrete Error call whose error value is a string of
valid JSON object text gets the expanded object as its `error` field
value (the context is empty, the caller supplies one field). -/
theorem errorlike_record_fields_witness :
    toJSON (GoVal.str "\x7b\"code\":\"500\"\x7d")
      = GoVal.map [("code", GoVal.str "500")] :=
  errorlike_record_fields.2.2.2.1 "\x7b\"code\":\"500\"\x7d"
    [("code", GoVal.str "500")] (by decide) rfl

/-! ### Flushing (`Sync`) -/

/-- The flushing-relevant state of one zap sink: how many entries are
still buffered, and the error its backend reports for a sync attempt
(`none` = success).  zap's `Sync` contract is to flush buffered
entries and return the backend's error. -/
structure Sink where
  pending : Nat
  syncErr : Option String

/-- One backend `Sync` call on a sink: the backend's result, and the
sink's state afterwards (drained exactly on success). -/
def sinkSync (s : Sink) : Option String × Sink :=
  match s.syncErr with
  | some e => (some e, s)
  | none => (none, { s with pending := 0 })

/-- The two independently configured sinks held by a `Log` handle. -/
structure LogSinks where
  logger : Sink
  loggerTDR : Sink

/-- `Log.Sync` from logger.go: `err1 := logger.Sync()`, then
`err2 := loggerTDR.Sync()`, then return `err1` if non-nil else
`err2`. -/
def LogSync (l : LogSinks) : Option String × LogSinks :=
  let r1 := sinkSync l.logger
  let r2 := sinkSync l.loggerTDR
  (if r1.1.isSome then r1.1 else r2.1, { logger := r1.2, loggerTDR := r2.2 })

/-! ### Claim C9 — flush attempts both sinks -/

/-- C9: `Sync` always performs the TDR sink's sync — its resulting
state is exactly the state a direct sync produces, so a TDR sink whose
backend succeeds ends up drained even when the system sink fails — and
the returned result is the system sink's error if it failed, otherwise
the TDR sink's result. -/
theorem sync_flushes_both :
    ∀ l : LogSinks,
      (LogSync l).2.loggerTDR = (sinkSync l.loggerTDR).2 ∧
      (l.loggerTDR.syncErr = none → (LogSync l).2.loggerTDR.pending = 0) ∧
      (LogSync l).1 = (if l.logger.syncErr.isSome then l.logger.syncErr
        else l.loggerTDR.syncErr) := by
  intro l
  refine ⟨rfl, ?_, ?_⟩
  · intro h
    simp [LogSync, sinkSync, h]
  · cases h1 : l.logger.syncErr <;> cases h2 : l.loggerTDR.syncErr <;>
      simp [LogSync, sinkSync, h1, h2]

/-- C9 witness: with a failing system sink (`disk full`) and a healthy
TDR sink holding five buffered entries, `Sync` still drains the TDR
sink and reports the system sink's error. -/
theorem sync_flushes_both_witness :
    (LogSync ⟨⟨3, some "disk full"⟩, ⟨5, none⟩⟩).2.loggerTDR.pending = 0 ∧
    (LogSync ⟨⟨3, some "disk full"⟩, ⟨5, none⟩⟩).1 = some "disk full" :=
  ⟨(sync_flushes_both ⟨⟨3, some "disk full"⟩, ⟨5, none⟩⟩).2.1 rfl,
    (sync_flushes_both ⟨⟨3, some "disk full"⟩, ⟨5, none⟩⟩).2.2⟩

/-! ### Heap model of the masking recursion

Go maps and slices are reference types.  To settle the frame claim —
masking builds fresh maps and arrays and never mutates its input — the
masking recursion is re-embedded over an explicit store: `HVal` is an
interface value whose map/slice cases are addresses, and the masking
functions thread the store, allocating every result map (`result :=
make(...)` in `maskFieldMap`) and every result array (`maskedArray :=
make(...)`) at a fresh address.  Lean allocates result structures after
their contents rather than before, which renumbers addresses but
touches no pre-existing cell either way.  The functions take fuel
because a cyclic heap would make the Go recursion diverge; all claims
condition on a successful (`some`) run. -/

/-- A heap-level Go interface value: scalars inline, maps and slices by
address. -/
inductive HVal where
  | nullH : HVal
  | boolH : Bool → HVal
  | numH : String → HVal
  | strH : String → HVal
  | bytesH : String → HVal
  | mapRef : Nat → HVal
  | arrRef : Nat → HVal
deriving DecidableEq

/-- The store: allocated maps and arrays, addressed by `Nat`, with the
next fresh address. -/
structure Store where
  maps : List (Nat × List (String × HVal))
  arrs : List (Nat × List HVal)
  next : Nat
deriving DecidableEq

/-- Look up the map allocated at `a`. -/
def Store.getMap (st : Store) (a : Nat) : Option (List (String × HVal)) :=
  (st.maps.find? (fun p => p.1 == a)).map Prod.snd

/-- Look up the array allocated at `a`. -/
def Store.getArr (st : Store) (a : Nat) : Option (List HVal) :=
  (st.arrs.find? (fun p => p.1 == a)).map Prod.snd

/-- Allocate a fresh map, returning the new store and its address. -/
def Store.allocMap (st : Store) (m : List (String × HVal)) : Store × Nat :=
  ({ st with maps := (st.next, m) :: st.maps, next := st.next + 1 }, st.next)

/-- Allocate a fresh array. -/
def Store.allocArr (st : Store) (xs : List HVal) : Store × Nat :=
  ({ st with arrs := (st.next, xs) :: st.arrs, next := st.next + 1 }, st.next)

/-- Well-formed store: every allocated address is below `next`. -/
def Store.WF (st : Store) : Prop :=
  (∀ p ∈ st.maps, p.1 < st.next) ∧ (∀ p ∈ st.arrs, p.1 < st.next)

instance (st : Store) : Decidable st.WF := by
  unfold Store.WF
  infer_instance

mutual

/-- `maskFieldMap` over the store: read the input map, mask its
entries, allocate the result map fresh. -/
def maskFieldMapH : Nat → Store → Nat → Option (Store × Nat)
  | 0, _, _ => none
  | fuel + 1, st, a =>
    match st.getMap a with
    | none => none
    | some entries =>
      match maskEntriesH fuel st entries with
      | none => none
      | some (st1, entries1) => some (Store.allocMap st1 entries1)

/-- The entry loop of `maskFieldMap` over the store. -/
def maskEntriesH : Nat → Store → List (String × HVal) →
    Option (Store × List (String × HVal))
  | 0, _, _ => none
  | _ + 1, st, [] => some (st, [])
  | fuel + 1, st, (k, v) :: rest =>
    match maskValueH fuel st k v with
    | none => none
    | some (st1, v1) =>
      match maskEntriesH fuel st1 rest with
      | none => none
      | some (st2, rest2) => some (st2, (k, v1) :: rest2)

/-- One entry's `switch` over the store: map values masked recursively,
array values rebuilt fresh with mapping elements masked, scalar values
masked by key. -/
def maskValueH : Nat → Store → String → HVal → Option (Store × HVal)
  | 0, _, _, _ => none
  | fuel + 1, st, _, HVal.mapRef a =>
    match maskFieldMapH fuel st a with
    | none => none
    | some (st1, a1) => some (st1, HVal.mapRef a1)
  | fuel + 1, st, _, HVal.arrRef a =>
    match st.getArr a with
    | none => none
    | some xs =>
      match maskElemsH fuel st xs with
      | none => none
      | some (st1, xs1) =>
        match Store.allocArr st1 xs1 with
        | (st2, a2) => some (st2, HVal.arrRef a2)
  | _ + 1, st, k, v =>
    some (st, if isSensitiveField k then HVal.strH maskString else v)

/-- The array-element loop over the store. -/
def maskElemsH : Nat → Store → List HVal → Option (Store × List HVal)
  | 0, _, _ => none
  | _ + 1, st, [] => some (st, [])
  | fuel + 1, st, HVal.mapRef a :: rest =>
    match maskFieldMapH fuel st a with
    | none => none
    | some (st1, a1) =>
      match maskElemsH fuel st1 rest with
      | none => none
      | some (st2, rest2) => some (st2, HVal.mapRef a1 :: rest2)
  | fuel + 1, st, x :: rest =>
    match maskElemsH fuel st rest with
    | none => none
    | some (st2, rest2) => some (st2, x :: rest2)

end

/-- `st'` extends `st` without touching any cell allocated in `st`. -/
def Store.Preserves (st st' : Store) : Prop :=
  st.next ≤ st'.next ∧
  (∀ b, b < st.next → st'.getMap b = st.getMap b) ∧
  (∀ b, b < st.next → st'.getArr b = st.getArr b)

theorem Store.Preserves.refl (st : Store) : Store.Preserves st st :=
  ⟨Nat.le_refl _, fun _ _ => rfl, fun _ _ => rfl⟩

theorem Store.Preserves.trans {st1 st2 st3 : Store}
    (h12 : Store.Preserves st1 st2) (h23 : Store.Preserves st2 st3) :
    Store.Preserves st1 st3 := by
  refine ⟨Nat.le_trans h12.1 h23.1, ?_, ?_⟩
  · intro b hb
    rw [h23.2.1 b (Nat.lt_of_lt_of_le hb h12.1), h12.2.1 b hb]
  · intro b hb
    rw [h23.2.2 b (Nat.lt_of_lt_of_le hb h12.1), h12.2.2 b hb]

theorem allocMap_preserves (st : Store) (m : List (String × HVal)) :
    Store.Preserves st (st.allocMap m).1 := by
  refine ⟨Nat.le_succ _, ?_, fun b _ => rfl⟩
  intro b hb
  have hne : (st.next == b) = false := by
    simp [Nat.ne_of_gt hb]
  simp [Store.allocMap, Store.getMap, List.find?, hne]

theorem allocArr_preserves (st : Store) (xs : List HVal) :
    Store.Preserves st (st.allocArr xs).1 := by
  refine ⟨Nat.le_succ _, fun b _ => rfl, ?_⟩
  intro b hb
  have hne : (st.next == b) = false := by
    simp [Nat.ne_of_gt hb]
  simp [Store.allocArr, Store.getArr, List.find?, hne]

theorem allocMap_WF {st : Store} (hwf : st.WF) (m : List (String × HVal)) :
    (st.allocMap m).1.WF := by
  constructor
  · intro p hp
    cases hp with
    | head => exact Nat.lt_succ_self _
    | tail _ h => exact Nat.lt_succ_of_lt (hwf.1 _ h)
  · intro p hp
    exact Nat.lt_succ_of_lt (hwf.2 _ hp)

theorem allocArr_WF {st : Store} (hwf : st.WF) (xs : List HVal) :
    (st.allocArr xs).1.WF := by
  constructor
  · intro p hp
    exact Nat.lt_succ_of_lt (hwf.1 _ hp)
  · intro p hp
    cases hp with
    | head => exact Nat.lt_succ_self _
    | tail _ h => exact Nat.lt_succ_of_lt (hwf.2 _ h)


/-- Frame property of the heap-level masking recursion, proved for all
four mutual functions at once by induction on fuel: a successful run
from a well-formed store only extends the store (shared helper). -/
theorem maskH_frame_all : ∀ fuel : Nat,
    (∀ st a st' a', st.WF → maskFieldMapH fuel st a = some (st', a') →
        Store.Preserves st st' ∧ st'.WF ∧ st.next ≤ a' ∧ a' < st'.next) ∧
    (∀ st es st' es', st.WF → maskEntriesH fuel st es = some (st', es') →
        Store.Preserves st st' ∧ st'.WF) ∧
    (∀ st k v st' v', st.WF → maskValueH fuel st k v = some (st', v') →
        Store.Preserves st st' ∧ st'.WF) ∧
    (∀ st xs st' xs', st.WF → maskElemsH fuel st xs = some (st', xs') →
        Store.Preserves st st' ∧ st'.WF) := by
  intro fuel
  induction fuel with
  | zero =>
    refine ⟨?_, ?_, ?_, ?_⟩
    · intro st a st' a' hwf h
      exact Option.noConfusion h
    · intro st es st' es' hwf h
      exact Option.noConfusion h
    · intro st k v st' v' hwf h
      exact Option.noConfusion h
    · intro st xs st' xs' hwf h
      exact Option.noConfusion h
  | succ fuel ih =>
    obtain ⟨ihMap, ihEntries, ihValue, ihElems⟩ := ih
    refine ⟨?_, ?_, ?_, ?_⟩
    · intro st a st' a' hwf h
      simp only [maskFieldMapH] at h
      split at h
      · exact Option.noConfusion h
      · next entries hget =>
        split at h
        · exact Option.noConfusion h
        · next st1 entries1 hme =>
          simp only [Store.allocMap] at h
          injection h with h'
          injection h' with h1 h2
          subst h1
          subst h2
          have he := ihEntries st entries st1 entries1 hwf hme
          exact ⟨Store.Preserves.trans he.1 (allocMap_preserves st1 entries1),
            allocMap_WF he.2 entries1, he.1.1, Nat.lt_succ_self _⟩
    · intro st es st' es' hwf h
      cases es with
      | nil =>
        simp only [maskEntriesH] at h
        injection h with h'
        injection h' with h1 h2
        subst h1
        exact ⟨Store.Preserves.refl st, hwf⟩
      | cons e rest =>
        obtain ⟨k, v⟩ := e
        simp only [maskEntriesH] at h
        split at h
        · exact Option.noConfusion h
        · next st1 v1 hv =>
          split at h
          · exact Option.noConfusion h
          · next st2 rest2 hr =>
            injection h with h'
            injection h' with h1 h2
            subst h1
            have hA := ihValue st k v st1 v1 hwf hv
            have hB := ihEntries st1 rest st2 rest2 hA.2 hr
            exact ⟨Store.Preserves.trans hA.1 hB.1, hB.2⟩
    · intro st k v st' v' hwf h
      cases v with
      | mapRef a =>
        simp only [maskValueH] at h
        split at h
        · exact Option.noConfusion h
        · next st1 a1 hm =>
          injection h with h'
          injection h' with h1 h2
          subst h1
          have hA := ihMap st a st1 a1 hwf hm
          exact ⟨hA.1, hA.2.1⟩
      | arrRef a =>
        simp only [maskValueH] at h
        split at h
        · exact Option.noConfusion h
        · next xs hget =>
          split at h
          · exact Option.noConfusion h
          · next st1 xs1 he =>
            simp only [Store.allocArr] at h
            injection h with h'
            injection h' with h1 h2
            subst h1
            have hA := ihElems st xs st1 xs1 hwf he
            exact ⟨Store.Preserves.trans hA.1 (allocArr_preserves st1 xs1),
              allocArr_WF hA.2 xs1⟩
      | nullH =>
        simp only [maskValueH] at h
        injection h with h'
        injection h' with h1 h2
        subst h1
        exact ⟨Store.Preserves.refl st, hwf⟩
      | boolH b =>
        simp only [maskValueH] at h
        injection h with h'
        injection h' with h1 h2
        subst h1
        exact ⟨Store.Preserves.refl st, hwf⟩
      | numH s =>
        simp only [maskValueH] at h
        injection h with h'
        injection h' with h1 h2
        subst h1
        exact ⟨Store.Preserves.refl st, hwf⟩
      | strH s =>
        simp only [maskValueH] at h
        injection h with h'
        injection h' with h1 h2
        subst h1
        exact ⟨Store.Preserves.refl st, hwf⟩
      | bytesH s =>
        simp only [maskValueH] at h
        injection h with h'
        injection h' with h1 h2
        subst h1
        exact ⟨Store.Preserves.refl st, hwf⟩
    · intro st xs st' xs' hwf h
      cases xs with
      | nil =>
        simp only [maskElemsH] at h
        injection h with h'
        injection h' with h1 h2
        subst h1
        exact ⟨Store.Preserves.refl st, hwf⟩
      | cons x rest =>
        cases x with
        | mapRef a =>
          simp only [maskElemsH] at h
          split at h
          · exact Option.noConfusion h
          · next st1 a1 hm =>
            split at h
            · exact Option.noConfusion h
            · next st2 rest2 hr =>
              injection h with h'
              injection h' with h1 h2
              subst h1
              have hA := ihMap st a st1 a1 hwf hm
              have hB := ihElems st1 rest st2 rest2 hA.2.1 hr
              exact ⟨Store.Preserves.trans hA.1 hB.1, hB.2⟩
        | nullH =>
          simp only [maskElemsH] at h
          split at h
          · exact Option.noConfusion h
          · next st2 rest2 hr =>
            injection h with h'
            injection h' with h1 h2
            subst h1
            exact ihElems st rest st2 rest2 hwf hr
        | boolH b =>
          simp only [maskElemsH] at h
          split at h
          · exact Option.noConfusion h
          · next st2 rest2 hr =>
            injection h with h'
            injection h' with h1 h2
            subst h1
            exact ihElems st rest st2 rest2 hwf hr
        | numH s =>
          simp only [maskElemsH] at h
          split at h
          · exact Option.noConfusion h
          · next st2 rest2 hr =>
            injection h with h'
            injection h' with h1 h2
            subst h1
            exact ihElems st rest st2 rest2 hwf hr
        | strH s =>
          simp only [maskElemsH] at h
          split at h
          · exact Option.noConfusion h
          · next st2 rest2 hr =>
            injection h with h'
            injection h' with h1 h2
            subst h1
            exact ihElems st rest st2 rest2 hwf hr
        | bytesH s =>
          simp only [maskElemsH] at h
          split at h
          · exact Option.noConfusion h
          · next st2 rest2 hr =>
            injection h with h'
            injection h' with h1 h2
            subst h1
            exact ihElems st rest st2 rest2 hwf hr
        | arrRef a =>
          simp only [maskElemsH] at h
          split at h
          · exact Option.noConfusion h
          · next st2 rest2 hr =>
            injection h with h'
            injection h' with h1 h2
            subst h1
            exact ihElems st rest st2 rest2 hwf hr

/-! ### Claim C10 — masking does not mutate its input -/

/-- C10: a successful heap-level masking run from a well-formed store
leaves every previously allocated map and array cell exactly as it was
— the input mapping and all its nested mappings and sequences are
unchanged — and the returned mapping lives at a fresh address allocated
by the run. -/
theorem maskFieldMapH_no_mutation :
    ∀ fuel st a st' a', Store.WF st → maskFieldMapH fuel st a = some (st', a') →
      (∀ b, b < st.next → st'.getMap b = st.getMap b) ∧
      (∀ b, b < st.next → st'.getArr b = st.getArr b) ∧
      st.next ≤ a' ∧ a' < st'.next := by
  intro fuel st a st' a' hwf h
  have hA := (maskH_frame_all fuel).1 st a st' a' hwf h
  exact ⟨hA.1.2.1, hA.1.2.2, hA.2.2⟩

/-- The C10 witness input store: the map at address 0 holds a sensitive
scalar and a reference to the nested map at address 1; the array at
address 7 references the map at address 1. -/
def witnessStore : Store :=
  { maps := [(0, [("password", HVal.strH "x"), ("data", HVal.mapRef 1)]),
             (1, [("n", HVal.numH "1")])],
    arrs := [(7, [HVal.mapRef 1, HVal.boolH true])],
    next := 8 }

/-- The store the C10 witness run produces: the masked copies live at
the fresh addresses 8 and 9 and every original cell is intact. -/
def witnessStoreAfter : Store :=
  { maps := [(9, [("password", HVal.strH maskString), ("data", HVal.mapRef 8)]),
             (8, [("n", HVal.numH "1")]),
             (0, [("password", HVal.strH "x"), ("data", HVal.mapRef 1)]),
             (1, [("n", HVal.numH "1")])],
    arrs := [(7, [HVal.mapRef 1, HVal.boolH true])],
    next := 10 }

/-- C10 witness: masking the map at address 0 succeeds, returns the
fresh address 9, and the cells at addresses 0, 1 and 7 still hold
exactly their old values. -/
theorem maskFieldMapH_no_mutation_witness :
    maskFieldMapH 10 witnessStore 0 = some (witnessStoreAfter, 9) ∧
    witnessStoreAfter.getMap 0 = witnessStore.getMap 0 ∧
    witnessStoreAfter.getMap 1 = witnessStore.getMap 1 ∧
    witnessStoreAfter.getArr 7 = witnessStore.getArr 7 :=
  ⟨rfl,
    (maskFieldMapH_no_mutation 10 witnessStore 0 witnessStoreAfter 9
      (by decide) rfl).1 0 (by decide),
    (maskFieldMapH_no_mutation 10 witnessStore 0 witnessStoreAfter 9
      (by decide) rfl).1 1 (by decide),
    (maskFieldMapH_no_mutation 10 witnessStore 0 witnessStoreAfter 9
      (by decide) rfl).2.1 7 (by decide)⟩

end Golog
